import Mathlib

/-!
Verification of the runn step-execution engine against its specification.

The definitions below are a shallow embedding of the Go sources
(`operator.go`, `grpc.go`, `dump.go`): result mappings become association
lists over a JSON-like value type, the operator's store becomes an explicit
state record, and each runner entry point becomes a state-passing function
returning `Except` for Go's error returns.  Parts of the repository that the
claims need but that are not present under `src/` (the store's primitive
append and insert, the loop controller's continuation test) are modelled
from the specification and marked as such in their doc comments.
-/

set_option autoImplicit false

/-- JSON-like values stored in the operator's result store
(Go `interface{}` values produced by the runners). -/
inductive Val : Type where
  | vNull : Val
  | vBool : Bool → Val
  | vInt : Int → Val
  | vStr : String → Val
  | vList : List Val → Val
  | vMap : List (String × Val) → Val

/-- A Go `map[string]interface{}` result mapping, modelled as an association
list with unique keys kept by construction. -/
abbrev RMap : Type := List (String × Val)

/-- Go map assignment `m[k] = v`: replace the binding in place if present,
otherwise add it. -/
def setKey {β : Type} : List (String × β) → String → β → List (String × β)
  | [], k, v => [(k, v)]
  | (k', v') :: rest, k, v =>
    if k' = k then (k, v) :: rest else (k', v') :: setKey rest k v

/-- Go map read `m[k]`. -/
def getKey? {β : Type} : List (String × β) → String → Option β
  | [], _ => none
  | (k', v') :: rest, k => if k' = k then some v' else getKey? rest k

/-- Go `delete(m, k)`. -/
def eraseKey {β : Type} : List (String × β) → String → List (String × β)
  | [], _ => []
  | (k', v') :: rest, k => if k' = k then rest else (k', v') :: eraseKey rest k

/-- `storeStepRunKey` from the Go sources: every recorded mapping gets a
`run` entry. -/
def storeStepRunKey : String := "run"

/-- The operator's store (`store` in Go), restricted to the recording state
the claims are about: list-mode results, map-mode results and the loop
index. -/
structure Store where
  steps : List RMap
  stepMap : List (String × RMap)
  loopIndex : Option Nat

/-- The recording-relevant part of `operator`: the step keys (Go
`o.steps[i].key`), the `useMap` / `skipTest` flags and the store. -/
structure Operator where
  stepKeys : List String
  useMap : Bool
  skipTest : Bool
  store : Store

/-- Modelled from the spec: `store.recordAsListed` (store.go is not under
`src/`); the store appends the mapping to the ordered `steps` sequence. -/
def Store.recordAsListed (st : Store) (v : RMap) : Store :=
  { st with steps := st.steps ++ [v] }

/-- Modelled from the spec: `store.recordAsMapped` (store.go is not under
`src/`); the store inserts the mapping under the given step key. -/
def Store.recordAsMapped (st : Store) (k : String) (v : RMap) : Store :=
  { st with stepMap := setKey st.stepMap k v }

/-- `operator.recordAsListed`: while `loopIndex > 0` the last element is
popped before the append ("delete values of previous loop").  Go slices
panic on `steps[:len-1]` for an empty slice; `dropLast` returns `[]` there,
which no reachable state exercises. -/
def Operator.recordAsListed (o : Operator) (v : RMap) : Operator :=
  let st := o.store
  let st :=
    match st.loopIndex with
    | some li => if 0 < li then { st with steps := st.steps.dropLast } else st
    | none => st
  { o with store := st.recordAsListed v }

/-- `operator.recordAsMapped`: while `loopIndex > 0` the entry of the
previous iteration's key (`o.steps[len(stepMap)-1].key`) is deleted, then
the mapping is inserted under `o.steps[len(stepMap)].key`.  Go panics on an
out-of-range step index; `getD` returns `""` there, which no reachable
state exercises. -/
def Operator.recordAsMapped (o : Operator) (v : RMap) : Operator :=
  let st := o.store
  let st :=
    match st.loopIndex with
    | some li =>
      if 0 < li then
        { st with stepMap := eraseKey st.stepMap (o.stepKeys.getD (st.stepMap.length - 1) "") }
      else st
    | none => st
  let k := o.stepKeys.getD st.stepMap.length ""
  { o with store := st.recordAsMapped k v }

/-- `operator.record`: `nil` is replaced by an empty mapping, `v["run"]` is
set to `true`, then the mapping is recorded in the mode selected by
`useMap`. -/
def Operator.record (o : Operator) (v : Option RMap) : Operator :=
  let v := v.getD []
  let v := setKey v storeStepRunKey (Val.vBool true)
  if o.useMap then o.recordAsMapped v else o.recordAsListed v

/-- `operator.skipStep`: records `{run: false}` in the mode selected by
`useMap`. -/
def Operator.skipStep (o : Operator) : Operator :=
  let v : RMap := setKey [] storeStepRunKey (Val.vBool false)
  if o.useMap then o.recordAsMapped v else o.recordAsListed v

/-- The key under which `operator.recordAsMapped` will insert next, as
computed by the Go code (after the previous-iteration delete). -/
def Operator.mapRecordKey (o : Operator) : String :=
  let st := o.store
  let st :=
    match st.loopIndex with
    | some li =>
      if 0 < li then
        { st with stepMap := eraseKey st.stepMap (o.stepKeys.getD (st.stepMap.length - 1) "") }
      else st
    | none => st
  o.stepKeys.getD st.stepMap.length ""

/-- The result slot a `record`/`skipStep` call on `o` writes: the last list
element in list mode, the entry under `o.mapRecordKey` in map mode.  `o`
is the operator before the call, `o'` the operator after it. -/
def recordedSlot (o o' : Operator) : Option RMap :=
  if o.useMap then getKey? o'.store.stepMap o.mapRecordKey else o'.store.steps.getLast?

theorem getKey?_setKey_self {β : Type} (m : List (String × β)) (k : String) (v : β) :
    getKey? (setKey m k v) k = some v := by
  induction m with
  | nil => simp [setKey, getKey?]
  | cons p rest ih =>
    obtain ⟨k', v'⟩ := p
    by_cases h : k' = k
    · simp [setKey, getKey?, h]
    · simp [setKey, getKey?, h, ih]

theorem getKey?_setKey_of_ne {β : Type} (m : List (String × β)) (k k' : String) (v : β)
    (h : k' ≠ k) : getKey? (setKey m k v) k' = getKey? m k' := by
  induction m with
  | nil => simp [setKey, getKey?, Ne.symm h]
  | cons p rest ih =>
    obtain ⟨k₀, v₀⟩ := p
    by_cases h₀ : k₀ = k
    · subst h₀
      simp [setKey, getKey?, Ne.symm h, h]
    · by_cases h₁ : k₀ = k'
      · subst h₁
        simp [setKey, getKey?, h₀]
      · simp [setKey, getKey?, h₀, h₁, ih]

theorem getLast?_append_singleton {β : Type} (l : List β) (a : β) :
    (l ++ [a]).getLast? = some a := by
  rw [List.getLast?_append_cons]
  rfl

theorem recordedSlot_record (o : Operator) (v : Option RMap) :
    recordedSlot o (o.record v)
      = some (setKey (v.getD []) storeStepRunKey (Val.vBool true)) := by
  by_cases hm : o.useMap
  · simp only [recordedSlot, Operator.record, Operator.recordAsMapped, Operator.mapRecordKey,
      Store.recordAsMapped, hm, if_true]
    exact getKey?_setKey_self _ _ _
  · simp only [recordedSlot, Operator.record, Operator.recordAsListed, Store.recordAsListed,
      hm, if_false, Bool.false_eq_true]
    exact getLast?_append_singleton _ _

theorem recordedSlot_skipStep (o : Operator) :
    recordedSlot o o.skipStep = some [(storeStepRunKey, Val.vBool false)] := by
  by_cases hm : o.useMap
  · simp only [recordedSlot, Operator.skipStep, Operator.recordAsMapped, Operator.mapRecordKey,
      Store.recordAsMapped, hm, if_true]
    exact getKey?_setKey_self _ _ _
  · simp only [recordedSlot, Operator.skipStep, Operator.recordAsListed, Store.recordAsListed,
      hm, if_false, Bool.false_eq_true]
    exact getLast?_append_singleton _ _

/-- C2: every `record(v)` stores a mapping whose `run` key is `true`, with
`v`'s other entries preserved and `nil` treated as the empty mapping, and
every `skipStep()` stores exactly `{run: false}`; this holds in list mode
and in map mode alike. -/
theorem claim_C2_record_run_key (o : Operator) (v : Option RMap) :
    recordedSlot o (o.record v) = some (setKey (v.getD []) storeStepRunKey (Val.vBool true))
    ∧ getKey? (setKey (v.getD []) storeStepRunKey (Val.vBool true)) storeStepRunKey
        = some (Val.vBool true)
    ∧ (∀ k, k ≠ storeStepRunKey →
        getKey? (setKey (v.getD []) storeStepRunKey (Val.vBool true)) k = getKey? (v.getD []) k)
    ∧ recordedSlot o o.skipStep = some [(storeStepRunKey, Val.vBool false)] :=
  ⟨recordedSlot_record o v, getKey?_setKey_self _ _ _,
    fun _ hk => getKey?_setKey_of_ne _ _ _ _ hk, recordedSlot_skipStep o⟩

/-- A fresh list-mode operator with one declared step, used by concrete
witnesses. -/
def opListX : Operator :=
  { stepKeys := ["0"], useMap := false, skipTest := false,
    store := { steps := [], stepMap := [], loopIndex := none } }

/-- C2 witness: the theorem evaluated on a concrete operator and mapping. -/
theorem claim_C2_record_run_key_witness :
    recordedSlot opListX (opListX.record (some [("x", Val.vInt 7)]))
      = some [("x", Val.vInt 7), (storeStepRunKey, Val.vBool true)]
    ∧ getKey? (setKey [("x", Val.vInt 7)] storeStepRunKey (Val.vBool true)) "x"
      = some (Val.vInt 7) := by
  have h := claim_C2_record_run_key opListX (some [("x", Val.vInt 7)])
  exact ⟨h.1, (h.2.2.1 "x" (by decide)).trans rfl⟩

/-- `setKey` on a map without the key appends the binding at the end. -/
theorem setKey_append_of_none {β : Type} (m : List (String × β)) (k : String) (v : β)
    (h : getKey? m k = none) : setKey m k v = m ++ [(k, v)] := by
  induction m with
  | nil => rfl
  | cons p rest ih =>
    obtain ⟨k₀, v₀⟩ := p
    by_cases h₀ : k₀ = k
    · simp [getKey?, h₀] at h
    · simp only [getKey?, if_neg h₀] at h
      simp [setKey, h₀, ih h]

/-- `eraseKey` of a freshly appended binding restores the map. -/
theorem eraseKey_concat_of_none {β : Type} (m : List (String × β)) (k : String) (v : β)
    (h : getKey? m k = none) : eraseKey (m ++ [(k, v)]) k = m := by
  induction m with
  | nil => simp [eraseKey]
  | cons p rest ih =>
    obtain ⟨k₀, v₀⟩ := p
    by_cases h₀ : k₀ = k
    · simp [getKey?, h₀] at h
    · simp only [getKey?, if_neg h₀] at h
      simp [eraseKey, h₀, ih h]

/-- `o.store.loopIndex = &j` from the loop branch of `operator.runInternal`
(and the deferred `o.store.loopIndex = nil`). -/
def Operator.setLoopIndex (o : Operator) (j : Option Nat) : Operator :=
  { o with store := { o.store with loopIndex := j } }

/-- The record pattern of the loop branch of `operator.runInternal`: each
iteration `j = 0, …, N-1` first sets `loopIndex := j`, then the step-fn
performs its single `record` with the iteration's output `vs j`. -/
def runLoopRecords (o : Operator) (vs : Nat → RMap) : Nat → Operator
  | 0 => o
  | n + 1 => ((runLoopRecords o vs n).setLoopIndex (some n)).record (some (vs n))

/-- A full loop of `N` iterations including the deferred
`o.store.loopIndex = nil`. -/
def runLoopStep (o : Operator) (vs : Nat → RMap) (n : Nat) : Operator :=
  (runLoopRecords o vs n).setLoopIndex none

theorem record_useMap (o : Operator) (v : Option RMap) : (o.record v).useMap = o.useMap := by
  by_cases h : o.useMap <;>
    simp [Operator.record, Operator.recordAsMapped, Operator.recordAsListed, h]

theorem record_stepKeys (o : Operator) (v : Option RMap) : (o.record v).stepKeys = o.stepKeys := by
  by_cases h : o.useMap <;>
    simp [Operator.record, Operator.recordAsMapped, Operator.recordAsListed, h]

theorem record_loopIndex (o : Operator) (v : Option RMap) :
    (o.record v).store.loopIndex = o.store.loopIndex := by
  by_cases h : o.useMap <;>
    rcases hli : o.store.loopIndex with _ | li <;>
    simp [Operator.record, Operator.recordAsMapped, Operator.recordAsListed,
      Store.recordAsMapped, Store.recordAsListed, h, hli] <;>
    by_cases h0 : 0 < li <;> simp [h0, hli]


/-- In list mode, a loop of `m + 1` record calls grows `steps` by exactly
one slot holding the final iteration's mapping. -/
theorem runLoopRecords_listed (o : Operator) (vs : Nat → RMap) (hm : o.useMap = false) :
    ∀ m,
      (runLoopRecords o vs (m + 1)).store.steps
          = o.store.steps ++ [setKey (vs m) storeStepRunKey (Val.vBool true)]
      ∧ (runLoopRecords o vs (m + 1)).store.loopIndex = some m
      ∧ (runLoopRecords o vs (m + 1)).useMap = false := by
  intro m
  induction m with
  | zero =>
    refine ⟨?_, ?_, ?_⟩ <;>
      simp [runLoopRecords, Operator.record, Operator.recordAsListed, Operator.setLoopIndex,
        Store.recordAsListed, hm]
  | succ j ih =>
    obtain ⟨hs, hli, hmap⟩ := ih
    refine ⟨?_, ?_, ?_⟩
    · show (((runLoopRecords o vs (j + 1)).setLoopIndex (some (j + 1))).record
        (some (vs (j + 1)))).store.steps = _
      simp only [Operator.record, Operator.setLoopIndex, Operator.recordAsListed,
        Store.recordAsListed, hmap, Bool.false_eq_true, if_false]
      simp only [hs, Nat.succ_pos, if_true, List.dropLast_concat, Option.getD_some]
    · show (((runLoopRecords o vs (j + 1)).setLoopIndex (some (j + 1))).record
        (some (vs (j + 1)))).store.loopIndex = _
      simp [Operator.record, Operator.setLoopIndex, Operator.recordAsListed,
        Store.recordAsListed, hmap]
    · show (((runLoopRecords o vs (j + 1)).setLoopIndex (some (j + 1))).record
        (some (vs (j + 1)))).useMap = _
      simp [Operator.record, Operator.setLoopIndex, Operator.recordAsListed,
        Store.recordAsListed, hmap]

/-- In map mode, a loop of `m + 1` record calls adds exactly one entry,
under the step's own key, holding the final iteration's mapping (the key is
fresh: steps record in declaration order). -/
theorem runLoopRecords_mapped (o : Operator) (vs : Nat → RMap) (hm : o.useMap = true)
    (hk : getKey? o.store.stepMap (o.stepKeys.getD o.store.stepMap.length "") = none) :
    ∀ m,
      (runLoopRecords o vs (m + 1)).store.stepMap
          = o.store.stepMap ++ [(o.stepKeys.getD o.store.stepMap.length "",
              setKey (vs m) storeStepRunKey (Val.vBool true))]
      ∧ (runLoopRecords o vs (m + 1)).store.loopIndex = some m
      ∧ (runLoopRecords o vs (m + 1)).useMap = true
      ∧ (runLoopRecords o vs (m + 1)).stepKeys = o.stepKeys := by
  intro m
  induction m with
  | zero =>
    have hk' : getKey? o.store.stepMap (o.stepKeys[o.store.stepMap.length]?.getD "") = none := by
      simpa using hk
    refine ⟨?_, ?_, ?_, ?_⟩ <;>
      simp [runLoopRecords, Operator.record, Operator.recordAsMapped, Operator.setLoopIndex,
        Store.recordAsMapped, hm, setKey_append_of_none _ _ _ hk']
  | succ j ih =>
    obtain ⟨hs, hli, hmap, hkeys⟩ := ih
    have hlen : (o.store.stepMap
        ++ [(o.stepKeys.getD o.store.stepMap.length "",
             setKey (vs j) storeStepRunKey (Val.vBool true))]).length
        = o.store.stepMap.length + 1 := by
      simp
    refine ⟨?_, ?_, ?_, ?_⟩
    · show (((runLoopRecords o vs (j + 1)).setLoopIndex (some (j + 1))).record
        (some (vs (j + 1)))).store.stepMap = _
      simp only [Operator.record, Operator.setLoopIndex, Operator.recordAsMapped,
        Store.recordAsMapped, hmap, if_true, Option.getD_some]
      simp only [hs, hkeys, hlen, Nat.succ_pos, if_true, Nat.add_sub_cancel]
      rw [eraseKey_concat_of_none _ _ _ hk, setKey_append_of_none _ _ _ hk]
    · show (((runLoopRecords o vs (j + 1)).setLoopIndex (some (j + 1))).record
        (some (vs (j + 1)))).store.loopIndex = _
      simp [Operator.record, Operator.setLoopIndex, Operator.recordAsMapped,
        Store.recordAsMapped, hmap]
    · show (((runLoopRecords o vs (j + 1)).setLoopIndex (some (j + 1))).record
        (some (vs (j + 1)))).useMap = _
      simp [Operator.record, Operator.setLoopIndex, Operator.recordAsMapped,
        Store.recordAsMapped, hmap]
    · show (((runLoopRecords o vs (j + 1)).setLoopIndex (some (j + 1))).record
        (some (vs (j + 1)))).stepKeys = _
      simp [Operator.record, Operator.setLoopIndex, Operator.recordAsMapped,
        Store.recordAsMapped, hmap, hkeys]

/-- C3: for a step under a loop of `n ≥ 1` iterations, each record while
`loopIndex > 0` first removes the previous iteration's slot (list pop /
map delete), so after the loop exactly one slot is occupied for that step,
holding the final iteration's output; afterwards `loopIndex` is cleared. -/
theorem claim_C3_loop_single_slot (o : Operator) (vs : Nat → RMap) (n : Nat) (hn : 1 ≤ n) :
    (o.useMap = false →
      (runLoopStep o vs n).store.steps
          = o.store.steps ++ [setKey (vs (n - 1)) storeStepRunKey (Val.vBool true)])
    ∧ (o.useMap = true →
        getKey? o.store.stepMap (o.stepKeys.getD o.store.stepMap.length "") = none →
        (runLoopStep o vs n).store.stepMap
          = o.store.stepMap ++ [(o.stepKeys.getD o.store.stepMap.length "",
              setKey (vs (n - 1)) storeStepRunKey (Val.vBool true))])
    ∧ (runLoopStep o vs n).store.loopIndex = none := by
  obtain ⟨m, rfl⟩ : ∃ m, n = m + 1 := ⟨n - 1, by omega⟩
  refine ⟨fun hm => ?_, fun hm hk => ?_, rfl⟩
  · have h := (runLoopRecords_listed o vs hm m).1
    simpa [runLoopStep, Operator.setLoopIndex] using h
  · have h := (runLoopRecords_mapped o vs hm hk m).1
    simpa [runLoopStep, Operator.setLoopIndex] using h

/-- A fresh map-mode operator with one declared step key `"a"`, used by
concrete witnesses. -/
def opMapX : Operator :=
  { stepKeys := ["a"], useMap := true, skipTest := false,
    store := { steps := [], stepMap := [], loopIndex := none } }

/-- C3 witness: a two-iteration loop on concrete list-mode and map-mode
operators leaves exactly one slot with the final iteration's output. -/
theorem claim_C3_loop_single_slot_witness :
    (runLoopStep opListX (fun j => [("n", Val.vInt j)]) 2).store.steps
        = [[("n", Val.vInt 1), (storeStepRunKey, Val.vBool true)]]
    ∧ (runLoopStep opMapX (fun j => [("n", Val.vInt j)]) 2).store.stepMap
        = [("a", [("n", Val.vInt 1), (storeStepRunKey, Val.vBool true)])]
    ∧ (runLoopStep opListX (fun j => [("n", Val.vInt j)]) 2).store.loopIndex = none := by
  have h1 := claim_C3_loop_single_slot opListX (fun j => [("n", Val.vInt j)]) 2 (by decide)
  have h2 := claim_C3_loop_single_slot opMapX (fun j => [("n", Val.vInt j)]) 2 (by decide)
  exact ⟨(h1.1 rfl).trans rfl, (h2.2.1 rfl rfl).trans rfl, h1.2.2⟩

/-- `strings.HasSuffix`, on the underlying character sequences (Lean's
built-in `String.endsWith` does not reduce inside the kernel). -/
def hasSuffix (s sfx : String) : Bool := sfx.data.isSuffixOf s.data

/-- The TLS decision of `grpcRunner.Run` on first dial: `useTLS := true`,
forced off when the target ends in `":80"`, then overridden by the explicit
`tls` option when set. -/
def dialUseTLS (target : String) (tlsSetting : Option Bool) : Bool :=
  let useTLS := true
  let useTLS := if hasSuffix target ":80" then false else useTLS
  match tlsSetting with
  | some b => b
  | none => useTLS

/-- `crypto/tls.VersionTLS12` (0x0303). -/
def versionTLS12 : Nat := 771

/-- The dial configuration assembled by `grpcRunner.Run`: the TLS choice,
the TLS config's minimum version (`MinVersion: tls.VersionTLS12`) when TLS
is used, and the hard-coded 10-second `context.WithTimeout`. -/
structure DialPlan where
  useTLS : Bool
  tlsMinVersion : Option Nat
  timeoutSeconds : Nat

/-- The dial plan for a given target and `tls` option. -/
def dialPlan (target : String) (tlsSetting : Option Bool) : DialPlan :=
  { useTLS := dialUseTLS target tlsSetting
  , tlsMinVersion := if dialUseTLS target tlsSetting then some versionTLS12 else none
  , timeoutSeconds := 10 }

/-- C4: on first dial, TLS is used exactly when the explicit `tls` option
says so, and otherwise when the target does not end in `":80"`; an unset
`tls` with a `":80"` target dials insecurely, an explicit `tls=true` uses
TLS even then; with TLS the minimum version is TLS 1.2, and the dial
context always has a 10-second timeout. -/
theorem claim_C4_dial_tls (target : String) (b : Bool) :
    dialUseTLS target (some b) = b
    ∧ dialUseTLS target none = !(hasSuffix target ":80")
    ∧ (hasSuffix target ":80" = true → dialUseTLS target none = false)
    ∧ dialUseTLS target (some true) = true
    ∧ (∀ tlsSetting, dialUseTLS target tlsSetting = true →
        (dialPlan target tlsSetting).tlsMinVersion = some versionTLS12)
    ∧ (∀ tlsSetting, (dialPlan target tlsSetting).timeoutSeconds = 10) := by
  refine ⟨rfl, ?_, fun h => ?_, rfl, fun s hs => ?_, fun s => rfl⟩
  · by_cases h : hasSuffix target ":80" <;> simp [dialUseTLS, h]
  · simp [dialUseTLS, h]
  · simp [dialPlan, hs]

/-- C4 witness: concrete targets with and without the `":80"` suffix. -/
theorem claim_C4_dial_tls_witness :
    dialUseTLS "example.com:80" none = false
    ∧ dialUseTLS "example.com:80" (some true) = true
    ∧ dialUseTLS "example.com:443" none = true
    ∧ (dialPlan "example.com:443" none).tlsMinVersion = some versionTLS12
    ∧ (dialPlan "example.com:80" none).timeoutSeconds = 10 := by
  have h80 := claim_C4_dial_tls "example.com:80" false
  have h443 := claim_C4_dial_tls "example.com:443" false
  exact ⟨h80.2.2.1 (by decide), h80.2.2.2.1, (h443.2.1).trans (by decide),
    h443.2.2.2.2.1 none ((h443.2.1).trans (by decide)), h80.2.2.2.2.2 none⟩

/-- The loop branch of `operator.runInternal`, one `while` frame at a time.
`Loop.Loop(ctx)` (loop.go is not under `src/`) is modelled from the spec as
always continuing: it only waits the configured interval.  Arguments: the
`until` expression (`""` when empty), an oracle for its evaluation after
iteration `j`, an oracle for step-fn failure at iteration `j`, the current
`j`, and the remaining iterations `c - j` as fuel.  Returns how many times
the step-fn ran and whether `until` broke the loop. -/
def loopBranchAux (untilStr : String) (untilHolds : Nat → Bool) (stepFails : Nat → Bool) :
    Nat → Nat → Except String (Nat × Bool)
  | _, 0 => .ok (0, false)
  | j, fuel + 1 =>
    if stepFails j then .error "loop failed"
    else if !(untilStr == "") && untilHolds j then .ok (1, true)
    else
      match loopBranchAux untilStr untilHolds stepFails (j + 1) fuel with
      | .ok (n, sat) => .ok (n + 1, sat)
      | .error e => .error e

/-- The complete loop branch: `retrySuccess` starts as `until == ""` and is
set by an `until` break; when the loop ends without `retrySuccess` the step
fails with the retry diagnostic.  On success, returns the number of step-fn
executions. -/
def loopBranch (c : Nat) (untilStr : String) (untilHolds stepFails : Nat → Bool) :
    Except String Nat :=
  match loopBranchAux untilStr untilHolds stepFails 0 c with
  | .error e => .error e
  | .ok (n, sat) =>
    if untilStr == "" || sat then .ok n else .error "retry loop failed"

/-- C5 counterexample: with an empty `until` and `count = 2`, the step-fn
runs twice, not once — the loop is not done after one iteration. -/
theorem claim_C5_counterexample :
    loopBranch 2 "" (fun _ => false) (fun _ => false) = Except.ok 2
    ∧ loopBranch 2 "" (fun _ => false) (fun _ => false) ≠ Except.ok 1 := by
  refine ⟨rfl, fun h => ?_⟩
  rw [show loopBranch 2 "" (fun _ => false) (fun _ => false) = Except.ok 2 from rfl] at h
  exact absurd (Except.ok.inj h) (by decide)

theorem loopBranchAux_empty (untilHolds stepFails : Nat → Bool) :
    ∀ fuel j, (∀ i, i < fuel → stepFails (j + i) = false) →
      loopBranchAux "" untilHolds stepFails j fuel = .ok (fuel, false) := by
  intro fuel
  induction fuel with
  | zero => intro j _; rfl
  | succ f ih =>
    intro j h
    have h0 : stepFails j = false := by simpa using h 0 (Nat.succ_pos f)
    have hrest : ∀ i, i < f → stepFails (j + 1 + i) = false := by
      intro i hi
      have := h (i + 1) (by omega)
      simpa [Nat.add_assoc, Nat.add_comm 1 i] using this
    simp [loopBranchAux, h0, ih (j + 1) hrest]

/-- C5 amended: with an empty `until` expression the loop succeeds
unconditionally, but only after running the step-fn `count` times (once per
iteration), not after one iteration. -/
theorem claim_C5_empty_until_runs_count (c : Nat) (untilHolds stepFails : Nat → Bool)
    (h : ∀ j, j < c → stepFails j = false) :
    loopBranch c "" untilHolds stepFails = .ok c := by
  have := loopBranchAux_empty untilHolds stepFails c 0 (fun i hi => by simpa using h i hi)
  simp [loopBranch, this]

/-- C5 witness: a concrete three-iteration loop with empty `until` runs the
step-fn three times and succeeds. -/
theorem claim_C5_empty_until_runs_count_witness :
    loopBranch 3 "" (fun _ => true) (fun _ => false) = .ok 3 :=
  claim_C5_empty_until_runs_count 3 (fun _ => true) (fun _ => false) (fun _ _ => rfl)

/-- Which runner sections a step carries (`s.httpRunner != nil && …` etc.
collapsed to `hasPrimary`, since all six primary branches behave alike in
the step-fn; the test condition is non-empty when `hasTest`). -/
structure StepSpec where
  hasPrimary : Bool
  hasDump : Bool
  hasBind : Bool
  hasTest : Bool

/-- Observable events of one step-fn execution: the primary runner running
(and recording its own result), the `o.record(nil)` piggyback record, the
`o.skipStep()` of a skipped test, and the three side-runners running. -/
inductive StepEv : Type where
  | primaryRun : StepEv
  | recordNil : StepEv
  | skipRecord : StepEv
  | dumpRun : StepEv
  | bindRun : StepEv
  | testRun : StepEv
deriving DecidableEq

/-- Environment of one step-fn execution: what the primary runner records
and which runner invocations fail. -/
structure StepEnv where
  primaryResult : RMap
  primaryFails : Bool
  dumpFails : Bool
  bindFails : Bool
  testFails : Bool

/-- The step-fn built by `operator.runInternal`: primary runner first
(recording inside its `Run`), then the dump, bind and test blocks in that
order; each side-runner block performs `o.record(nil)` first when no
record has happened yet (`!run`); the test block returns early under
`skipTest`, recording `skipStep` when nothing ran; a step where nothing
ran is an `invalid runner` error. -/
def stepFn (env : StepEnv) (skipTest : Bool) (s : StepSpec) (o : Operator) :
    Except String (Operator × List StepEv) :=
  if s.hasPrimary && env.primaryFails then .error "request failed" else
  let o := if s.hasPrimary then o.record (some env.primaryResult) else o
  let evs := if s.hasPrimary then [StepEv.primaryRun] else []
  let run := s.hasPrimary
  -- dump runner
  let o := if s.hasDump && !run then o.record none else o
  let evs := evs ++ (if s.hasDump && !run then [StepEv.recordNil] else [])
  if s.hasDump && env.dumpFails then .error "dump failed" else
  let evs := evs ++ (if s.hasDump then [StepEv.dumpRun] else [])
  let run := run || s.hasDump
  -- bind runner
  let o := if s.hasBind && !run then o.record none else o
  let evs := evs ++ (if s.hasBind && !run then [StepEv.recordNil] else [])
  if s.hasBind && env.bindFails then .error "bind failed" else
  let evs := evs ++ (if s.hasBind then [StepEv.bindRun] else [])
  let run := run || s.hasBind
  -- test runner
  if s.hasTest then
    if skipTest then
      if !run then .ok (o.skipStep, evs ++ [StepEv.skipRecord]) else .ok (o, evs)
    else
      let o := if !run then o.record none else o
      let evs := evs ++ (if !run then [StepEv.recordNil] else [])
      if env.testFails then .error "test failed"
      else .ok (o, evs ++ [StepEv.testRun])
  else
    if run then .ok (o, evs) else .error "invalid runner"

/-- C9: with `skipTest` set, a step whose only runner is a test runner
returns nil having recorded `{run: false}` via `skipStep`, in any store
mode. -/
theorem claim_C9_skip_test_records_run_false (env : StepEnv) (o : Operator) :
    stepFn env true ⟨false, false, false, true⟩ o = .ok (o.skipStep, [StepEv.skipRecord])
    ∧ recordedSlot o o.skipStep = some [(storeStepRunKey, Val.vBool false)] :=
  ⟨rfl, recordedSlot_skipStep o⟩

/-- The trace the specification describes: side-runners in the fixed order
dump, bind, test after the primary; the first side-runner to execute with
no prior record performs one `record(nil)`. -/
def specTrace (s : StepSpec) : List StepEv :=
  (if s.hasPrimary then [StepEv.primaryRun] else [])
  ++ (if s.hasDump then
        (if s.hasPrimary then [] else [StepEv.recordNil]) ++ [StepEv.dumpRun] else [])
  ++ (if s.hasBind then
        (if s.hasPrimary || s.hasDump then [] else [StepEv.recordNil]) ++ [StepEv.bindRun]
      else [])
  ++ (if s.hasTest then
        (if s.hasPrimary || s.hasDump || s.hasBind then [] else [StepEv.recordNil])
          ++ [StepEv.testRun]
      else [])

/-- Number of record calls in a trace (`primaryRun` records inside the
primary runner's `Run`). -/
def countRecords : List StepEv → Nat
  | [] => 0
  | StepEv.primaryRun :: rest => countRecords rest + 1
  | StepEv.recordNil :: rest => countRecords rest + 1
  | StepEv.skipRecord :: rest => countRecords rest + 1
  | _ :: rest => countRecords rest

/-- C10: a successfully executed step runs dump, bind, test in that fixed
order after the primary runner; when there is no primary, exactly the first
side-runner to execute performs one `record(nil)` first, so exactly one
record call happens for the step. -/
theorem claim_C10_side_runner_order (env : StepEnv) (o : Operator) (s : StepSpec)
    (hp : env.primaryFails = false) (hd : env.dumpFails = false)
    (hb : env.bindFails = false) (ht : env.testFails = false)
    (hs : (s.hasPrimary || s.hasDump || s.hasBind || s.hasTest) = true) :
    (stepFn env false s o).map Prod.snd = .ok (specTrace s)
    ∧ countRecords (specTrace s) = 1 := by
  rcases s with ⟨p, d, b, t⟩
  cases p <;> cases d <;> cases b <;> cases t <;>
    simp_all [stepFn, specTrace, countRecords, Except.map]

/-- C10 witness: a step with every section present yields the full ordered
trace with a single record (inside the primary runner). -/
theorem claim_C10_side_runner_order_witness :
    (stepFn ⟨[], false, false, false, false⟩ false ⟨true, true, true, true⟩ opListX).map Prod.snd
        = .ok [StepEv.primaryRun, StepEv.dumpRun, StepEv.bindRun, StepEv.testRun]
    ∧ countRecords [StepEv.primaryRun, StepEv.dumpRun, StepEv.bindRun, StepEv.testRun] = 1 := by
  have h := claim_C10_side_runner_order ⟨[], false, false, false, false⟩ opListX
    ⟨true, true, true, true⟩ rfl rfl rfl rfl rfl
  exact ⟨h.1.trans rfl, h.2⟩

/-- Store keys of the gRPC runner's recorded result. -/
def grpcStoreStatusKey : String := "status"

def grpcStoreHeaderKey : String := "headers"

def grpcStoreTrailerKey : String := "trailers"

def grpcStoreMessageKey : String := "message"

def grpcStoreMessagesKey : String := "messages"

def grpcStoreResponseKey : String := "res"

/-- Go errors as the gRPC runner distinguishes them: context cancellation,
`io.EOF`, an error carrying a gRPC status, or any other error. -/
inductive GoErr : Type where
  | canceled : GoErr
  | eofErr : GoErr
  | statusErr : Int → String → GoErr
  | otherErr : String → GoErr
deriving DecidableEq

/-- `status.FromError`: a nil error converts to the OK status, a status
error to its code and message, and any other error fails to convert
(`ok == false`). -/
def statusFromError : Option GoErr → Option (Int × String)
  | none => some (0, "")
  | some (GoErr.statusErr c m) => some (c, m)
  | some _ => none

/-- Environment of one `invokeUnary` call: whether `setMessage` fails, the
error returned by `cc.Invoke`, whether marshalling the OK response through
proto-JSON fails (`protojson.Marshal` / `json.Unmarshal`), the proto-JSON
mapping of the response when it succeeds, and the response
headers/trailers. -/
structure UnaryEnv where
  setMsgFails : Bool
  invokeErr : Option GoErr
  resMarshalFails : Bool
  resParsed : RMap
  headers : Val
  trailers : Val

/-- The result mapping `d` assembled by `invokeUnary` once the call
completed with a gRPC status: `status`, `headers`, `trailers`, then
`message` (and `messages`) from the proto-JSON response on OK, or the
status's message string otherwise. -/
def unaryD (env : UnaryEnv) : RMap :=
  match statusFromError env.invokeErr with
  | none => []
  | some (c, m) =>
    let d : RMap := [(grpcStoreStatusKey, Val.vInt c), (grpcStoreHeaderKey, env.headers),
      (grpcStoreTrailerKey, env.trailers), (grpcStoreMessageKey, Val.vNull)]
    if c = 0 then
      let d := setKey d grpcStoreMessageKey (Val.vMap env.resParsed)
      setKey d grpcStoreMessagesKey (Val.vList [Val.vMap env.resParsed])
    else
      setKey d grpcStoreMessageKey (Val.vStr m)

/-- `grpcRunner.invokeUnary`: exactly one message required; `setMessage`
errors propagate; a non-status invoke error propagates; with an OK status
a failing proto-JSON marshal/unmarshal of the response propagates;
otherwise the result mapping is recorded under `res` and nil is
returned. -/
def invokeUnary (env : UnaryEnv) (msgCount : Nat) (o : Operator) : Except String Operator :=
  if msgCount != 1 then .error "unary RPC message should be 1"
  else if env.setMsgFails then .error "setMessage failed"
  else
    match statusFromError env.invokeErr with
    | none => .error "invoke failed"
    | some (c, _) =>
      if c = 0 ∧ env.resMarshalFails = true then .error "response marshal failed"
      else .ok (o.record (some [(grpcStoreResponseKey, Val.vMap (unaryD env))]))

/-- A concrete unary environment whose call completed with the OK status
but whose response does not marshal (e.g. an unresolvable
`google.protobuf.Any`). -/
def unaryEnvMarshalFailX : UnaryEnv :=
  { setMsgFails := false, invokeErr := none, resMarshalFails := true,
    resParsed := [], headers := Val.vMap [], trailers := Val.vMap [] }

/-- C6 counterexample: a unary call that completes with the OK gRPC status
can still make `invokeUnary` return an error — the OK branch's proto-JSON
marshal of the response fails (grpc.go returns that error before
recording), so the call does not return nil for every status completion. -/
theorem claim_C6_counterexample :
    statusFromError unaryEnvMarshalFailX.invokeErr = some (0, "")
    ∧ invokeUnary unaryEnvMarshalFailX 1 opListX = Except.error "response marshal failed" :=
  ⟨rfl, rfl⟩

/-- C6 amended: whenever the unary call completes with a gRPC status,
`invokeUnary` returns nil — unconditionally for a non-OK status, and for
the OK status provided the response marshals through proto-JSON (a marshal
failure is returned as an error instead) — and records: `res.status` is
the numeric code; `res.message` is the status's message string when the
code is not OK, and the proto-JSON mapping of the response when it is
OK. -/
theorem claim_C6_unary_status_not_error (env : UnaryEnv) (o : Operator) (c : Int) (m : String)
    (hset : env.setMsgFails = false)
    (hstat : statusFromError env.invokeErr = some (c, m))
    (hmar : c = 0 → env.resMarshalFails = false) :
    invokeUnary env 1 o = .ok (o.record (some [(grpcStoreResponseKey, Val.vMap (unaryD env))]))
    ∧ getKey? (unaryD env) grpcStoreStatusKey = some (Val.vInt c)
    ∧ getKey? (unaryD env) grpcStoreMessageKey
        = some (if c = 0 then Val.vMap env.resParsed else Val.vStr m) := by
  have hng : ¬(c = 0 ∧ env.resMarshalFails = true) := by
    rintro ⟨h0, hm⟩
    rw [hmar h0] at hm
    exact Bool.noConfusion hm
  refine ⟨?_, ?_, ?_⟩
  · simp [invokeUnary, hset, hstat, hng]
  · by_cases hc : c = 0 <;>
      simp [unaryD, hstat, hc, setKey, getKey?, grpcStoreStatusKey, grpcStoreHeaderKey,
        grpcStoreTrailerKey, grpcStoreMessageKey, grpcStoreMessagesKey]
  · by_cases hc : c = 0 <;>
      simp [unaryD, hstat, hc, setKey, getKey?, grpcStoreStatusKey, grpcStoreHeaderKey,
        grpcStoreTrailerKey, grpcStoreMessageKey, grpcStoreMessagesKey]

/-- A concrete unary environment whose call returned a non-OK status. -/
def unaryEnvX : UnaryEnv :=
  { setMsgFails := false, invokeErr := some (GoErr.statusErr 3 "invalid argument"),
    resMarshalFails := false, resParsed := [], headers := Val.vMap [], trailers := Val.vMap [] }

/-- A concrete unary environment whose call returned the OK status and
whose response marshals. -/
def unaryEnvOkX : UnaryEnv :=
  { setMsgFails := false, invokeErr := none, resMarshalFails := false,
    resParsed := [("msg", Val.vStr "hi")], headers := Val.vMap [], trailers := Val.vMap [] }

/-- C6 witness: the theorem evaluated on a concrete non-OK status call and
on a concrete OK call whose response marshals. -/
theorem claim_C6_unary_status_not_error_witness :
    invokeUnary unaryEnvX 1 opListX
        = .ok (opListX.record (some [(grpcStoreResponseKey, Val.vMap (unaryD unaryEnvX))]))
    ∧ getKey? (unaryD unaryEnvX) grpcStoreStatusKey = some (Val.vInt 3)
    ∧ getKey? (unaryD unaryEnvX) grpcStoreMessageKey = some (Val.vStr "invalid argument")
    ∧ invokeUnary unaryEnvOkX 1 opListX
        = .ok (opListX.record (some [(grpcStoreResponseKey, Val.vMap (unaryD unaryEnvOkX))]))
    ∧ getKey? (unaryD unaryEnvOkX) grpcStoreMessageKey
        = some (Val.vMap [("msg", Val.vStr "hi")]) := by
  have h := claim_C6_unary_status_not_error unaryEnvX opListX 3 "invalid argument" rfl rfl
    (fun h0 => absurd h0 (by decide))
  have hok := claim_C6_unary_status_not_error unaryEnvOkX opListX 0 "" rfl rfl (fun _ => rfl)
  refine ⟨h.1, h.2.1, h.2.2.trans ?_, hok.1, hok.2.2.trans ?_⟩ <;> simp [unaryEnvOkX]

/-- The three gRPC message ops (`GRPCOpMessage`, `GRPCOpReceive`,
`GRPCOpClose`). -/
inductive GRPCOp : Type where
  | message : GRPCOp
  | receive : GRPCOp
  | close : GRPCOp
deriving DecidableEq

/-- Observable stream interactions of `invokeClientStreaming`: `SendMsg`
of a payload, `CloseSend`, and the single `RecvMsg`. -/
inductive CSEv : Type where
  | sendMsg : Nat → CSEv
  | closeSend : CSEv
  | recvMsg : CSEv
deriving DecidableEq

/-- Environment of one `invokeClientStreaming` call: per-send `setMessage`
and `SendMsg` outcomes (the send outcome is computed by the code but never
acted on — see `csOpLoop`), the `CloseSend` outcome, the single `RecvMsg`
outcome with its parsed proto-JSON response, whether marshalling an OK
response through proto-JSON fails, and the header/trailer values. -/
structure CSEnv where
  setMsgFails : Nat → Bool
  sendErr : Nat → Option GoErr
  closeSendErr : Option GoErr
  recvErr : Option GoErr
  resMarshalFails : Bool
  recvParsed : RMap
  headerVal : Option Val
  trailerVal : Val

/-- The op loop of `invokeClientStreaming`: a `message` op is marshalled
(`setMessage` errors propagate) and sent.  The cancellation/EOF checks on
the send error guard unlabeled `break` statements inside the `switch`, so
in Go they only leave the switch, not the `for` loop: every send outcome
continues with the next op, and the send error is otherwise discarded.
Any other op hits the `default` branch and fails with `invalid op`. -/
def csOpLoop (env : CSEnv) : List (GRPCOp × Nat) → Nat → Except String (List CSEv)
  | [], _ => .ok []
  | (op, p) :: rest, i =>
    match op with
    | GRPCOp.message =>
      if env.setMsgFails i then .error "setMessage failed"
      else
        match csOpLoop env rest (i + 1) with
        | .ok evs => .ok (CSEv.sendMsg p :: evs)
        | .error e => .error e
    | GRPCOp.receive => .error "invalid op: receive"
    | GRPCOp.close => .error "invalid op: close"

/-- The result mapping `d` assembled by `invokeClientStreaming` from the
single response: `status`, `message` (parsed response on OK, the status's
message string otherwise), `messages`, headers when available, trailers. -/
def csD (env : CSEnv) : RMap :=
  match statusFromError env.recvErr with
  | none => []
  | some (c, m) =>
    let d : RMap := [(grpcStoreHeaderKey, Val.vMap []), (grpcStoreTrailerKey, Val.vMap []),
      (grpcStoreMessageKey, Val.vNull)]
    let d := setKey d grpcStoreStatusKey (Val.vInt c)
    let d :=
      if c = 0 then setKey d grpcStoreMessageKey (Val.vMap env.recvParsed)
      else setKey d grpcStoreMessageKey (Val.vStr m)
    let d := setKey d grpcStoreMessagesKey
      (Val.vList (if c = 0 then [Val.vMap env.recvParsed] else []))
    let d :=
      match env.headerVal with
      | some h => setKey d grpcStoreHeaderKey h
      | none => d
    setKey d grpcStoreTrailerKey env.trailerVal

/-- `grpcRunner.invokeClientStreaming`: the op loop, then `CloseSend`
(errors propagate), then the single `RecvMsg`; a non-status receive error
propagates; with an OK status a failing proto-JSON marshal/unmarshal of
the response propagates; otherwise the result is recorded under `res` and
nil is returned. -/
def invokeClientStreaming (env : CSEnv) (ops : List (GRPCOp × Nat)) (o : Operator) :
    Except String (List CSEv × Operator) :=
  match csOpLoop env ops 0 with
  | .error e => .error e
  | .ok evs =>
    match env.closeSendErr with
    | some _ => .error "CloseSend failed"
    | none =>
      let evs := evs ++ [CSEv.closeSend, CSEv.recvMsg]
      match statusFromError env.recvErr with
      | none => .error "recv failed"
      | some (c, _) =>
        if c = 0 ∧ env.resMarshalFails = true then .error "response marshal failed"
        else .ok (evs, o.record (some [(grpcStoreResponseKey, Val.vMap (csD env))]))

/-- A client-streaming environment whose stream interactions all succeed. -/
def csEnvX : CSEnv :=
  { setMsgFails := fun _ => false, sendErr := fun _ => none, closeSendErr := none,
    recvErr := none, resMarshalFails := false, recvParsed := [], headerVal := none,
    trailerVal := Val.vMap [] }

/-- C1 counterexample: a request whose messages contain a `close` op is not
tolerated — `invokeClientStreaming` fails with `invalid op` instead of
ignoring it and reaching `CloseSend`. -/
theorem claim_C1_counterexample :
    invokeClientStreaming csEnvX [(GRPCOp.close, 0)] opListX
      = Except.error "invalid op: close" := rfl

theorem csOpLoop_all_message (env : CSEnv)
    (hset : ∀ i, env.setMsgFails i = false) :
    ∀ ops i, (∀ p ∈ ops, (p : GRPCOp × Nat).1 = GRPCOp.message) →
      csOpLoop env ops i = .ok (ops.map (fun p => CSEv.sendMsg p.2)) := by
  intro ops
  induction ops with
  | nil => intro i _; rfl
  | cons p rest ih =>
    intro i hmsg
    obtain ⟨op, pay⟩ := p
    have hop : op = GRPCOp.message := hmsg (op, pay) (List.mem_cons_self _ _)
    subst hop
    have hrest : ∀ q ∈ rest, (q : GRPCOp × Nat).1 = GRPCOp.message :=
      fun q hq => hmsg q (List.mem_cons_of_mem _ hq)
    simp [csOpLoop, hset i, ih (i + 1) hrest]

/-- C1 amended: `invokeClientStreaming` does not ignore `close` ops — any
non-`message` op fails with an `invalid op` error before `CloseSend`.
When every op is a `message`, it sends each one in order whatever the
individual send outcomes are (the canceled/EOF `break` statements only
exit the Go `switch`, so no send outcome stops the loop), then calls
`CloseSend` after the loop and receives the single response (a failing
proto-JSON marshal of an OK response is an error instead of a record). -/
theorem claim_C1_client_streaming_ops (env : CSEnv) (ops : List (GRPCOp × Nat)) (o : Operator)
    (c : Int) (m : String)
    (hmsg : ∀ p ∈ ops, (p : GRPCOp × Nat).1 = GRPCOp.message)
    (hset : ∀ i, env.setMsgFails i = false)
    (hclose : env.closeSendErr = none)
    (hrecv : statusFromError env.recvErr = some (c, m))
    (hmar : c = 0 → env.resMarshalFails = false) :
    invokeClientStreaming env ops o
      = .ok (ops.map (fun p => CSEv.sendMsg p.2) ++ [CSEv.closeSend, CSEv.recvMsg],
          o.record (some [(grpcStoreResponseKey, Val.vMap (csD env))])) := by
  have hng : ¬(c = 0 ∧ env.resMarshalFails = true) := by
    rintro ⟨h0, hm⟩
    rw [hmar h0] at hm
    exact Bool.noConfusion hm
  simp [invokeClientStreaming, csOpLoop_all_message env hset ops 0 hmsg, hclose, hrecv, hng]

/-- A client-streaming environment where every `SendMsg` reports
cancellation — which the op loop does not act on — and the single receive
succeeds. -/
def csEnvY : CSEnv :=
  { setMsgFails := fun _ => false, sendErr := fun _ => some GoErr.canceled,
    closeSendErr := none, recvErr := none, resMarshalFails := false, recvParsed := [],
    headerVal := none, trailerVal := Val.vMap [] }

/-- C1 witness: both message ops are sent in order even though every send
reports cancellation, then `CloseSend`, then the single receive. -/
theorem claim_C1_client_streaming_ops_witness :
    invokeClientStreaming csEnvY [(GRPCOp.message, 5), (GRPCOp.message, 7)] opListX
      = .ok ([CSEv.sendMsg 5, CSEv.sendMsg 7, CSEv.closeSend, CSEv.recvMsg],
          opListX.record (some [(grpcStoreResponseKey, Val.vMap (csD csEnvY))])) := by
  have h := claim_C1_client_streaming_ops csEnvY [(GRPCOp.message, 5), (GRPCOp.message, 7)]
    opListX 0 "" (by decide) (fun i => rfl) rfl rfl (fun _ => rfl)
  exact h.trans rfl

/-- Outcome of one `RecvMsg` call: nil error with a parsed proto-JSON
message, or an error. -/
inductive RecvR : Type where
  | okMsg : RMap → RecvR
  | failErr : GoErr → RecvR

/-- Environment of one `invokeBidiStreaming` call: per-call outcomes of
`SendMsg`, `RecvMsg` and `CloseSend` (indexed by call count), the header
and trailer values, and whether `cc.Close()` and the trailer deep copy
succeed. -/
structure BidiEnv where
  setMsgFails : Nat → Bool
  sendErr : Nat → Option GoErr
  recv : Nat → RecvR
  closeSendErr : Nat → Option GoErr
  headerVal : Option Val
  trailerVal : Val
  ccCloseOk : Bool
  trailerCopyOk : Bool

/-- State threaded through the bidi op loop and drains: the result mapping
`d`, the collected OK `messages`, the `clientClose` flag, the `err`
variable of the op loop, and the call counters. -/
structure BidiSt where
  d : RMap
  msgs : List RMap
  clientClose : Bool
  errV : Option GoErr
  sendIdx : Nat
  recvIdx : Nat
  closeIdx : Nat

/-- A `receive` op's status handling inside the op loop: record the status
code, the headers once available, then the parsed message (appending to
`messages`) on OK or the status's message string otherwise. -/
def bidiRecvRecord (env : BidiEnv) (st : BidiSt) (c : Int) (m : String) (parsed : RMap) :
    BidiSt :=
  let d := setKey st.d grpcStoreStatusKey (Val.vInt c)
  let d :=
    match env.headerVal with
    | some h => setKey d grpcStoreHeaderKey h
    | none => d
  if c = 0 then
    { st with
        d := setKey d grpcStoreMessageKey (Val.vMap parsed),
        msgs := st.msgs ++ [parsed],
        recvIdx := st.recvIdx + 1 }
  else
    { st with
        d := setKey d grpcStoreMessageKey (Val.vStr m),
        recvIdx := st.recvIdx + 1 }

/-- The labelled op loop `L` of `invokeBidiStreaming`: `message` sends and
breaks on cancellation/EOF (the send error lands in the loop's `err`
variable), `receive` breaks on cancellation/EOF, propagates non-status
errors and records status errors or messages (its error is a fresh local,
not the loop's `err`), `close` calls `CloseSend`, marks the client closed
and breaks. -/
def bidiOpLoop (env : BidiEnv) : List GRPCOp → BidiSt → Except String BidiSt
  | [], st => .ok st
  | op :: rest, st =>
    match op with
    | GRPCOp.message =>
      if env.setMsgFails st.sendIdx then .error "setMessage failed"
      else
        let e := env.sendErr st.sendIdx
        let st' := { st with errV := e, sendIdx := st.sendIdx + 1 }
        match e with
        | some GoErr.canceled => .ok st'
        | some GoErr.eofErr => .ok st'
        | _ => bidiOpLoop env rest st'
    | GRPCOp.receive =>
      match env.recv st.recvIdx with
      | RecvR.failErr GoErr.canceled => .ok { st with recvIdx := st.recvIdx + 1 }
      | RecvR.failErr GoErr.eofErr => .ok { st with recvIdx := st.recvIdx + 1 }
      | RecvR.failErr (GoErr.otherErr e) => .error e
      | RecvR.failErr (GoErr.statusErr c m) => bidiOpLoop env rest (bidiRecvRecord env st c m [])
      | RecvR.okMsg parsed => bidiOpLoop env rest (bidiRecvRecord env st 0 "" parsed)
    | GRPCOp.close =>
      .ok { st with
              errV := env.closeSendErr st.closeIdx,
              clientClose := true,
              closeIdx := st.closeIdx + 1 }

/-- A drain receive's status handling (the post-loop drain does not touch
headers). -/
def bidiDrainRecord (st : BidiSt) (c : Int) (m : String) (parsed : RMap) : BidiSt :=
  let d := setKey st.d grpcStoreStatusKey (Val.vInt c)
  if c = 0 then
    { st with
        d := setKey d grpcStoreMessageKey (Val.vMap parsed),
        msgs := st.msgs ++ [parsed],
        recvIdx := st.recvIdx + 1 }
  else
    { st with
        d := setKey d grpcStoreMessageKey (Val.vStr m),
        recvIdx := st.recvIdx + 1 }

/-- The drain after a client close: receive until cancellation/EOF,
propagating every other receive error, re-issuing `CloseSend` after each
successful receive (its error propagates).  Fuel bounds the loop; running
out models non-termination and records nothing. -/
def bidiDrainClose (env : BidiEnv) : Nat → BidiSt → Except String BidiSt
  | 0, _ => .error "drain did not terminate"
  | fuel + 1, st =>
    match env.recv st.recvIdx with
    | RecvR.failErr GoErr.canceled => .ok { st with recvIdx := st.recvIdx + 1 }
    | RecvR.failErr GoErr.eofErr => .ok { st with recvIdx := st.recvIdx + 1 }
    | RecvR.failErr (GoErr.statusErr _ m) => .error m
    | RecvR.failErr (GoErr.otherErr e) => .error e
    | RecvR.okMsg _ =>
      match env.closeSendErr st.closeIdx with
      | some _ => .error "CloseSend failed"
      | none =>
        bidiDrainClose env fuel
          { st with recvIdx := st.recvIdx + 1, closeIdx := st.closeIdx + 1 }

/-- The drain when the client did not close and no send error occurred:
receive until cancellation/EOF, recording statuses and OK messages,
propagating non-status errors. -/
def bidiDrainRecv (env : BidiEnv) : Nat → BidiSt → Except String BidiSt
  | 0, _ => .error "drain did not terminate"
  | fuel + 1, st =>
    match env.recv st.recvIdx with
    | RecvR.failErr GoErr.canceled => .ok { st with recvIdx := st.recvIdx + 1 }
    | RecvR.failErr GoErr.eofErr => .ok { st with recvIdx := st.recvIdx + 1 }
    | RecvR.failErr (GoErr.otherErr e) => .error e
    | RecvR.failErr (GoErr.statusErr c m) => bidiDrainRecv env fuel (bidiDrainRecord st c m [])
    | RecvR.okMsg parsed => bidiDrainRecv env fuel (bidiDrainRecord st 0 "" parsed)

/-- The initial result mapping of the bidi invocation. -/
def bidiInitD : RMap :=
  [(grpcStoreHeaderKey, Val.vMap []), (grpcStoreTrailerKey, Val.vMap []),
   (grpcStoreMessageKey, Val.vNull)]

/-- `grpcRunner.invokeBidiStreaming` through the trailer snapshot: reject
timeouts, run the op loop, convert the loop's `err` (non-status errors
propagate; non-OK statuses land in `d`), drain according to
`clientClose`/`err`, then `cc.Close()` (errors propagate; on success the
connection and reflection client fields are nulled), then fill `messages`,
the late headers and the deep-copied trailers. -/
def bidiCore (env : BidiEnv) (fuel : Nat) (timeoutSet : Bool) (ops : List GRPCOp) :
    Except String RMap :=
  if timeoutSet then .error "unsupported timeout: for bidirectional streaming RPC"
  else
    let st0 : BidiSt :=
      { d := bidiInitD, msgs := [], clientClose := false, errV := none,
        sendIdx := 0, recvIdx := 0, closeIdx := 0 }
    match bidiOpLoop env ops st0 with
    | .error e => .error e
    | .ok st =>
      match statusFromError st.errV with
      | none => .error "stream error"
      | some (c, m) =>
        let st :=
          if c = 0 then st
          else { st with
                   d := setKey (setKey st.d grpcStoreStatusKey (Val.vInt c))
                     grpcStoreMessageKey (Val.vStr m) }
        let drained :=
          if st.clientClose then bidiDrainClose env fuel st
          else
            match st.errV with
            | none => bidiDrainRecv env fuel st
            | some _ => .ok st
        match drained with
        | .error e => .error e
        | .ok st =>
          if env.ccCloseOk then
            let d := setKey st.d grpcStoreMessagesKey (Val.vList (st.msgs.map Val.vMap))
            let d :=
              match getKey? d grpcStoreHeaderKey, env.headerVal with
              | some (Val.vMap []), some h => setKey d grpcStoreHeaderKey h
              | _, _ => d
            if env.trailerCopyOk then .ok (setKey d grpcStoreTrailerKey env.trailerVal)
            else .error "failed to copy trailers"
          else .error "connection close failed"

/-- The gRPC runner's connection state after a bidi invocation, plus the
recorded operator.  `rnr.cc = nil; rnr.refc = nil` run right after the
successful `cc.Close()`, before the trailer snapshot and the `record`. -/
structure BidiOut where
  ccConnected : Bool
  refcSet : Bool
  op : Operator

/-- `invokeBidiStreaming`: every run that reaches `record` has already
force-closed and nulled the connection and reflection client. -/
def invokeBidiStreaming (env : BidiEnv) (fuel : Nat) (timeoutSet : Bool) (ops : List GRPCOp)
    (o : Operator) : Except String BidiOut :=
  (bidiCore env fuel timeoutSet ops).map (fun d =>
    { ccConnected := false, refcSet := false,
      op := o.record (some [(grpcStoreResponseKey, Val.vMap d)]) })

/-- `grpcRunner.Run` dials exactly when the connection field is nil
(grpc.go, the `rnr.cc == nil` guard). -/
def runDialsOnNilConn (ccConnected : Bool) : Bool := !ccConnected

/-- C7: whenever a bidi-streaming step records a result, the runner's
connection and reflection client are already nil, so the next `Run` on the
same runner dials afresh. -/
theorem claim_C7_bidi_nulls_connection (env : BidiEnv) (fuel : Nat) (ts : Bool)
    (ops : List GRPCOp) (o : Operator) (out : BidiOut)
    (h : invokeBidiStreaming env fuel ts ops o = .ok out) :
    out.ccConnected = false ∧ out.refcSet = false
    ∧ runDialsOnNilConn out.ccConnected = true := by
  rcases hc : bidiCore env fuel ts ops with e | d
  · rw [invokeBidiStreaming, hc] at h
    exact absurd h (by simp [Except.map])
  · rw [invokeBidiStreaming, hc] at h
    simp only [Except.map] at h
    cases Except.ok.inj h
    exact ⟨rfl, rfl, rfl⟩

/-- A bidi environment where the drain hits EOF at once and close and copy
succeed. -/
def bidiEnvX : BidiEnv :=
  { setMsgFails := fun _ => false, sendErr := fun _ => none,
    recv := fun _ => RecvR.failErr GoErr.eofErr, closeSendErr := fun _ => none,
    headerVal := none, trailerVal := Val.vMap [], ccCloseOk := true, trailerCopyOk := true }

/-- The output of a concrete successful bidi invocation. -/
def bidiOutX : BidiOut :=
  match invokeBidiStreaming bidiEnvX 1 false [GRPCOp.close] opListX with
  | .ok out => out
  | .error _ => { ccConnected := true, refcSet := true, op := opListX }

/-- C7 witness: the theorem evaluated on a concrete recording bidi run. -/
theorem claim_C7_bidi_nulls_connection_witness :
    bidiOutX.ccConnected = false ∧ bidiOutX.refcSet = false
    ∧ runDialsOnNilConn bidiOutX.ccConnected = true :=
  claim_C7_bidi_nulls_connection bidiEnvX 1 false [GRPCOp.close] opListX bidiOutX (by rfl)

/-- The selection loop of `partOperators`: keep the operators whose index
satisfies `index mod n == i`.  Go computes `math.Mod(float64(ii),
float64(n)) == float64(i)`, exact over the integers in range here. -/
def partFrom {α : Type} (n i : Nat) : List α → Nat → List α
  | [], _ => []
  | o :: rest, idx =>
    if idx % n = i then o :: partFrom n i rest (idx + 1) else partFrom n i rest (idx + 1)

/-- `partOperators`: shard `i` of `n` keeps the operators at indices
congruent to `i` modulo `n`. -/
def partOperators {α : Type} (ops : List α) (n i : Nat) : List α := partFrom n i ops 0

theorem partFrom_sum {α : Type} (n : Nat) (hn : 0 < n) :
    ∀ (ops : List α) (start : Nat),
      (∑ i ∈ Finset.range n, ((partFrom n i ops start : List α) : Multiset α)) = ↑ops := by
  intro ops
  induction ops with
  | nil => intro start; simp [partFrom]
  | cons o rest ih =>
    intro start
    have hmem : start % n ∈ Finset.range n := Finset.mem_range.mpr (Nat.mod_lt _ hn)
    have hterm : ∀ i ∈ Finset.range n,
        ((partFrom n i (o :: rest) start : List α) : Multiset α)
          = ((partFrom n i rest (start + 1) : List α) : Multiset α)
            + (if start % n = i then ({o} : Multiset α) else 0) := by
      intro i _
      by_cases h : start % n = i
      · simp only [partFrom, h, if_true, ← Multiset.cons_coe]
        rw [← Multiset.singleton_add, add_comm]
      · simp [partFrom, h]
    rw [Finset.sum_congr rfl hterm, Finset.sum_add_distrib, ih (start + 1),
      Finset.sum_ite_eq (Finset.range n) (start % n) (fun _ => ({o} : Multiset α)),
      if_pos hmem, ← Multiset.cons_coe, ← Multiset.singleton_add, add_comm]

theorem partFrom_enumFrom {α : Type} (n i : Nat) :
    ∀ (ops : List α) (start : Nat),
      partFrom n i ops start
        = ((List.enumFrom start ops).filter (fun p => p.1 % n == i)).map Prod.snd := by
  intro ops
  induction ops with
  | nil => intro start; rfl
  | cons o rest ih =>
    intro start
    by_cases h : start % n = i <;>
      simp [partFrom, List.enumFrom, List.filter_cons, h, ih (start + 1)]

theorem partFrom_append {α : Type} (n i : Nat) :
    ∀ (l₁ l₂ : List α) (start : Nat),
      partFrom n i (l₁ ++ l₂) start
        = partFrom n i l₁ start ++ partFrom n i l₂ (start + l₁.length) := by
  intro l₁
  induction l₁ with
  | nil => intro l₂ start; simp [partFrom]
  | cons o rest ih =>
    intro l₂ start
    have harith : start + 1 + rest.length = start + (rest.length + 1) := by omega
    by_cases h : start % n = i <;>
      simp [partFrom, h, ih l₂ (start + 1), harith]

/-- The number of indices below `L` congruent to `i` modulo `n`
(`i < n`). -/
def shardCount (n i L : Nat) : Nat := L / n + (if i < L % n then 1 else 0)

theorem shardCount_succ (n i L : Nat) (hn : 0 < n) (hi : i < n) :
    shardCount n i (L + 1) = shardCount n i L + (if L % n = i then 1 else 0) := by
  have hq := Nat.div_add_mod L n
  have hr : L % n < n := Nat.mod_lt _ hn
  have h1 : L + 1 = n * (L / n) + (L % n + 1) := by rw [← Nat.add_assoc, hq]
  by_cases hcase : L % n + 1 = n
  · have h2 : L + 1 = n * (L / n + 1) := by rw [h1, hcase, Nat.mul_succ]
    have e1 : (L + 1) / n = L / n + 1 := by
      rw [h2, Nat.mul_div_cancel_left _ hn]
    have e2 : (L + 1) % n = 0 := by
      rw [h2, Nat.mul_mod_right]
    simp only [shardCount, e1, e2]
    have hreq : L % n = n - 1 := by omega
    by_cases h3 : L % n = i
    · simp only [h3, if_pos rfl]
      have : ¬ i < i := Nat.lt_irrefl i
      simp [this]
    · have h4 : i < L % n := by omega
      simp [h3, h4]
  · have e1 : (L + 1) / n = L / n := by
      rw [h1, Nat.mul_add_div hn,
        Nat.div_eq_of_lt (show L % n + 1 < n by omega), Nat.add_zero]
    have e2 : (L + 1) % n = L % n + 1 := by
      rw [h1, Nat.mul_add_mod, Nat.mod_eq_of_lt (by omega)]
    simp only [shardCount, e1, e2]
    by_cases h3 : L % n = i
    · have h4 : ¬ i < L % n := by omega
      have h5 : i < L % n + 1 := by omega
      simp [h3, h4, h5]
    · by_cases h4 : i < L % n
      · have h5 : i < L % n + 1 := by omega
        simp [h3, h4, h5]
      · have h5 : ¬ i < L % n + 1 := by omega
        simp [h3, h4, h5]

theorem partOperators_length {α : Type} (n : Nat) (hn : 0 < n) (i : Nat) (hi : i < n) :
    ∀ ops : List α, (partOperators ops n i).length = shardCount n i ops.length := by
  intro ops
  induction ops using List.reverseRecOn with
  | nil =>
    simp [partOperators, partFrom, shardCount, Nat.zero_div, Nat.zero_mod]
  | append_singleton l a ih =>
    rw [partOperators, partFrom_append n i l [a] 0] at *
    rw [List.length_append, List.length_append, List.length_singleton,
      shardCount_succ n i l.length hn hi, ← ih]
    simp only [partOperators, Nat.zero_add]
    by_cases h : l.length % n = i <;> simp [partFrom, h]

theorem shardCount_bound (n i j L : Nat) :
    shardCount n i L ≤ shardCount n j L + 1 := by
  simp only [shardCount]
  generalize L / n = q
  generalize L % n = r
  by_cases h1 : i < r <;> by_cases h2 : j < r <;> simp [h1, h2] <;> omega

/-- C8: for `n ≥ 1` shards, `partOperators` partitions the input: the
multiset union over shards `0, …, n-1` is the input; each index lands in
exactly one shard (the one matching `index mod n`); each shard keeps
exactly the operators at its congruent indices; any two shard sizes differ
by at most one. -/
theorem claim_C8_part_operators_partition {α : Type} (ops : List α) (n : Nat) (hn : 0 < n) :
    (∑ i ∈ Finset.range n, ((partOperators ops n i : List α) : Multiset α)) = ↑ops
    ∧ (∀ i, i < n →
        partOperators ops n i = ((ops.enum.filter (fun p => p.1 % n == i)).map Prod.snd))
    ∧ (∀ k i j, i < n → j < n → i ≠ j → ¬(k % n = i ∧ k % n = j))
    ∧ (∀ i j, i < n → j < n →
        (partOperators ops n i).length ≤ (partOperators ops n j).length + 1) := by
  refine ⟨partFrom_sum n hn ops 0, ?_, ?_, ?_⟩
  · intro i _
    rw [partOperators, partFrom_enumFrom n i ops 0]
    rfl
  · rintro k i j hi hj hij ⟨h1, h2⟩
    exact hij (h1 ▸ h2 ▸ rfl)
  · intro i j hi hj
    rw [partOperators_length n hn i hi ops, partOperators_length n hn j hj ops]
    exact shardCount_bound n i j ops.length

/-- C8 witness: three operators into two shards. -/
theorem claim_C8_part_operators_partition_witness :
    (∑ i ∈ Finset.range 2, ((partOperators [10, 20, 30] 2 i : List Nat) : Multiset Nat))
        = (↑([10, 20, 30] : List Nat) : Multiset Nat)
    ∧ partOperators [10, 20, 30] 2 0
        = ((([10, 20, 30] : List Nat).enum.filter (fun p => p.1 % 2 == 0)).map Prod.snd)
    ∧ (partOperators [10, 20, 30] 2 0).length ≤ (partOperators [10, 20, 30] 2 1).length + 1 := by
  have h := claim_C8_part_operators_partition (α := Nat) [10, 20, 30] 2 (by decide)
  exact ⟨h.1, h.2.1 0 (by decide), h.2.2.2 0 1 (by decide) (by decide)⟩
